import Mathlib

/-!
Formal verification development for the WarsawGTFS realtime pipeline
(repository MKuranowski/WarsawGTFS, Go sources under `src/`).

The Go code is shallowly embedded into Lean:

* Go `int`, `int16` values are modelled as `Int` (with explicit wrapping where
  a narrowing conversion happens in the source); `uint32`/`uint64` as `Nat`
  with explicit `% 2^w` where overflow matters.
* Geographic floating-point computations (`haversine`, `initialBearing`) are
  abstracted as arbitrary rational-valued parameters: the verified claims only
  concern the control logic around those library-style helpers, and the
  theorems below are proved for *every* such function.
* Go maps are modelled either as association lists (when their entry set
  matters) or as total functions returning the Go zero value for missing keys;
  each definition notes which.
* Fallible Go functions (returning `error`) are modelled with `Except`/`Option`.
-/

namespace WarsawGTFS

/-! Time model, from `src/realtime/positions/time.go`. -/

/-- Error value raised by `compareTime.After`/`compareTime.Since` when the
left operand is uncertain (Go type `invalidCompareTimeComparison`). -/
structure invalidCompareTimeComparison where
  t_h : Int
  t_m : Int
  t_s : Int
  t_uncertainDay : Bool
deriving DecidableEq, Repr

/-- `compareTime` represents a clock-of-day value; `uncertainDay` marks values
built from a wall-clock instant (Go struct `compareTime`). -/
structure compareTime where
  h : Int
  m : Int
  s : Int
  uncertainDay : Bool
deriving DecidableEq, Repr

/-- Seconds-since-midnight count (Go method `compareTime.Seconds`). -/
def compareTime.Seconds (t : compareTime) : Int :=
  t.s + t.m * 60 + t.h * 3600

instance {ε α : Type} [DecidableEq ε] [DecidableEq α] :
    DecidableEq (Except ε α) := fun x y =>
  match x, y with
  | Except.ok a, Except.ok b =>
    if h : a = b then isTrue (by rw [h])
    else isFalse fun hh => h (Except.ok.inj hh)
  | Except.ok _, Except.error _ => isFalse fun hh => Except.noConfusion hh
  | Except.error _, Except.ok _ => isFalse fun hh => Except.noConfusion hh
  | Except.error e, Except.error f =>
    if h : e = f then isTrue (by rw [h])
    else isFalse fun hh => h (Except.error.inj hh)

/-- The error value carrying the offending `compareTime` (Go wraps `t`). -/
def compareTime.asErr (t : compareTime) : invalidCompareTimeComparison :=
  ⟨t.h, t.m, t.s, t.uncertainDay⟩

/-- Go method `compareTime.After` from `time.go` lines 43-60. -/
def compareTime.After (t other : compareTime) :
    Except invalidCompareTimeComparison Bool :=
  if t.uncertainDay then Except.error t.asErr
  else
    let tSec := t.Seconds
    let oSec := other.Seconds
    let oSec2 := if other.uncertainDay ∧ 24 ≤ t.h ∧ other.h ≤ 3
                 then oSec + 86400 else oSec
    Except.ok (decide (oSec2 < tSec))

/-- Go method `compareTime.Since` from `time.go` lines 63-80. -/
def compareTime.Since (t other : compareTime) :
    Except invalidCompareTimeComparison Int :=
  if t.uncertainDay then Except.error t.asErr
  else
    let tSec := t.Seconds
    let oSec := other.Seconds
    let oSec2 := if other.uncertainDay ∧ 24 ≤ t.h ∧ other.h ≤ 3
                 then oSec + 86400 else oSec
    Except.ok (tSec - oSec2)

/-- C3: `t.After(other)` and `t.Since(other)` error exactly when `t` is
uncertain; for certain `t`, `Since` returns the difference of total seconds
with the +86400 midnight-rollover adjustment applied to an uncertain right
operand when `t.h ≥ 24` and `other.h ≤ 3`, and `After` is true exactly when
that adjusted difference is positive. -/
theorem compareTime_after_since_spec (t other : compareTime) :
    ((∃ e, t.After other = Except.error e) ↔ t.uncertainDay = true) ∧
    ((∃ e, t.Since other = Except.error e) ↔ t.uncertainDay = true) ∧
    (t.uncertainDay = false →
      t.Since other = Except.ok ((t.h * 3600 + t.m * 60 + t.s) -
        ((other.h * 3600 + other.m * 60 + other.s) +
          (if other.uncertainDay = true ∧ 24 ≤ t.h ∧ other.h ≤ 3
           then 86400 else 0))) ∧
      (t.After other = Except.ok true ↔
        0 < (t.h * 3600 + t.m * 60 + t.s) -
          ((other.h * 3600 + other.m * 60 + other.s) +
            (if other.uncertainDay = true ∧ 24 ≤ t.h ∧ other.h ≤ 3
             then 86400 else 0)))) := by
  rcases t with ⟨th, tm, ts, tu⟩
  rcases other with ⟨oh, om, os, ou⟩
  cases tu
  · refine ⟨by simp [compareTime.After], by simp [compareTime.Since],
      fun _ => ⟨?_, ?_⟩⟩
    · simp only [compareTime.Since, compareTime.Seconds, Bool.false_eq_true,
        reduceIte, Except.ok.injEq]
      by_cases hc : ou = true ∧ 24 ≤ th ∧ oh ≤ 3
      · rw [if_pos hc, if_pos hc]; ring
      · rw [if_neg hc, if_neg hc]; ring
    · simp only [compareTime.After, compareTime.Seconds, Bool.false_eq_true,
        reduceIte, Except.ok.injEq, decide_eq_true_iff]
      by_cases hc : ou = true ∧ 24 ≤ th ∧ oh ≤ 3
      · rw [if_pos hc, if_pos hc]; omega
      · rw [if_neg hc, if_neg hc]; omega
  · exact ⟨by simp [compareTime.After], by simp [compareTime.Since], by simp⟩

/-- Witness for C3: the certain time 25:10:00 compared with the uncertain
wall-clock 00:30:00 — midnight rollover applies, `Since` is 2400 seconds and
`After` holds. -/
theorem compareTime_after_since_spec_witness :
    compareTime.Since ⟨25, 10, 0, false⟩ ⟨0, 30, 0, true⟩ = Except.ok 2400 ∧
    compareTime.After ⟨25, 10, 0, false⟩ ⟨0, 30, 0, true⟩ = Except.ok true := by
  have h := compareTime_after_since_spec ⟨25, 10, 0, false⟩ ⟨0, 30, 0, true⟩
  have h3 := h.2.2 rfl
  constructor
  · rw [h3.1]; norm_num
  · exact h3.2.mpr (by norm_num)

/-! Vehicle-position matcher, from `src/unnamed/part_009` (Go package
`positions`, vehicles and matching) and `src/unnamed/part_001` (geomath
helpers and `indexMatchingTrip`). -/

/-- One entry of a brigade grouping (Go struct `brigadeEntry` from
`src/realtime/positions/brigadehandler.go`). Coordinates are rationals; the
claims under study treat the float geometry abstractly. -/
structure brigadeEntry where
  TripID : String
  LastStopID : String
  LastStopPos : Rat × Rat
  LastStopTimepoint : String
  LastStopTime : compareTime
deriving DecidableEq, Repr

instance : Inhabited brigadeEntry :=
  ⟨⟨"", "", (0, 0), "", ⟨0, 0, 0, false⟩⟩⟩

/-- Go struct `Vehicle` (part_009 lines 15-31). The `TimeObj` field is
dropped: no claim under study uses it. -/
structure Vehicle where
  ID : String
  Time : String
  Lat : Rat
  Lon : Rat
  SideNumber : String
  Trip : String
  Bearing : Rat
  Line : String
  Brigade : String
deriving DecidableEq, Repr

instance : Inhabited Vehicle := ⟨⟨"", "", 0, 0, "", "", 0, "", ""⟩⟩

/-- Type of the abstracted geometry helpers (`haversine`, `initialBearing`
from part_001): the Go source computes them with IEEE floating point, and the
theorems below hold for every function of this type, hence in particular for
any exact model of the float computation. -/
def GeoFn : Type := Rat → Rat → Rat → Rat → Rat

/-- Go function `indexMatchingTrip` (part_001 lines 57-64): index of the
first entry carrying the given trip id, `-1` when absent. -/
def indexMatchingTrip : List brigadeEntry → String → Int
  | [], _ => -1
  | e :: es, searchTrip =>
    if e.TripID = searchTrip then 0
    else
      let r := indexMatchingTrip es searchTrip
      if r = -1 then -1 else r + 1

/-- The scanning loop of `Vehicle.MatchTripNoPV` (part_009 lines 92-100):
the trip id of the first entry whose `LastStopTime` is `After cst`,
propagating a comparison error. -/
def matchTripNoPVScan (cst : compareTime) :
    List brigadeEntry → Except invalidCompareTimeComparison (Option String)
  | [] => Except.ok none
  | b :: bs =>
    match b.LastStopTime.After cst with
    | Except.error e => Except.error e
    | Except.ok true => Except.ok (some b.TripID)
    | Except.ok false => matchTripNoPVScan cst bs

/-- Go method `Vehicle.MatchTripNoPV` (part_009 lines 89-109). Go indexes
`be[len(be)-1]`, which panics on an empty slice; the embedding totalises
that access with `List.getD` (every claim restricts to non-empty
groupings). -/
def Vehicle.MatchTripNoPV (v : Vehicle) (cst : compareTime)
    (be : List brigadeEntry) : Except invalidCompareTimeComparison Vehicle :=
  match matchTripNoPVScan cst be with
  | Except.error e => Except.error e
  | Except.ok r =>
    let trip1 := match r with
      | some tripID => tripID
      | none => v.Trip
    let trip2 := if trip1 = "" then (be.getD (be.length - 1) default).TripID
                 else trip1
    Except.ok { v with Trip := trip2 }

/-- Go method `Vehicle.MatchTripWithPV` (part_009 lines 112-154),
parameterised by the float helper `haversine`. The in-range slice accesses
`be[prevTripIdx]` and `be[prevTripIdx+1]` are totalised with `List.getD`. -/
def Vehicle.MatchTripWithPV (haversine : GeoFn) (v pv : Vehicle)
    (cst : compareTime) (be : List brigadeEntry) :
    Except invalidCompareTimeComparison Vehicle :=
  let prevTripIdx := indexMatchingTrip be pv.Trip
  if prevTripIdx < 0 then v.MatchTripNoPV cst be
  else if prevTripIdx = (be.length : Int) - 1 then
    Except.ok { v with Trip := pv.Trip }
  else
    let pvTripEntry := be.getD prevTripIdx.toNat default
    match pvTripEntry.LastStopTime.Since cst with
    | Except.error e => Except.error e
    | Except.ok secondsToEnd =>
      let nearTerminus :=
        haversine v.Lat v.Lon pvTripEntry.LastStopPos.1 pvTripEntry.LastStopPos.2
          ≤ (5 / 100 : Rat)
      let nearEndTime := secondsToEnd < 240
      let shouldveFinished := secondsToEnd < -1800
      if (nearTerminus ∧ nearEndTime) ∨ shouldveFinished then
        Except.ok { v with Trip := (be.getD (prevTripIdx.toNat + 1) default).TripID }
      else
        Except.ok { v with Trip := pv.Trip }

/-- Go method `Vehicle.MatchTrip` (part_009 lines 157-170); `pv = none`
models a nil previous-vehicle pointer. -/
def Vehicle.MatchTrip (haversine : GeoFn) (v : Vehicle) (pv : Option Vehicle)
    (cst : compareTime) (be : List brigadeEntry) :
    Except invalidCompareTimeComparison Vehicle :=
  if be.length = 0 then Except.ok v
  else
    match pv with
    | none => v.MatchTripNoPV cst be
    | some pvv => Vehicle.MatchTripWithPV haversine v pvv cst be

/-- Go method `Vehicle.CalculateBearing` (part_009 lines 74-85),
parameterised by the float helpers `haversine` and `initialBearing`. -/
def Vehicle.CalculateBearing (haversine initialBearing : GeoFn)
    (v : Vehicle) (pv : Option Vehicle) : Vehicle :=
  match pv with
  | none => v
  | some pvv =>
    if haversine pvv.Lat pvv.Lon v.Lat v.Lon < (2 / 100 : Rat) then
      { v with Bearing := pvv.Bearing }
    else
      { v with Bearing := initialBearing pvv.Lat pvv.Lon v.Lat v.Lon }

/-- A certain `compareTime` compares without error: its `After` evaluates to
the adjusted-seconds comparison. -/
theorem compareTime.After_certain (t o : compareTime)
    (h : t.uncertainDay = false) :
    t.After o = Except.ok (decide
      ((if o.uncertainDay = true ∧ 24 ≤ t.h ∧ o.h ≤ 3
        then o.Seconds + 86400 else o.Seconds) < t.Seconds)) := by
  simp [compareTime.After, h]

/-- Helper lemma: on a grouping of certain last-stop times the scan of
`MatchTripNoPV` never fails and returns the trip id of the first entry that
is `After cst` (in `List.find?` form). -/
theorem matchTripNoPVScan_eq_find (cst : compareTime)
    (be : List brigadeEntry)
    (hcert : ∀ e ∈ be, e.LastStopTime.uncertainDay = false) :
    matchTripNoPVScan cst be = Except.ok
      ((be.find? fun b => b.LastStopTime.After cst = Except.ok true).map
        brigadeEntry.TripID) := by
  induction be with
  | nil => rfl
  | cons b bs ih =>
    have hb : b.LastStopTime.uncertainDay = false := hcert b (List.mem_cons_self b bs)
    have ih2 := ih fun e he => hcert e (List.mem_cons_of_mem _ he)
    cases hA : b.LastStopTime.After cst with
    | error e =>
      rw [compareTime.After_certain _ _ hb] at hA
      exact absurd hA (by simp)
    | ok tb =>
      simp only [matchTripNoPVScan, hA, List.find?_cons]
      cases tb
      · exact ih2
      · rfl

/-- Helper lemma: for a non-empty list, the Go access `be[len(be)-1]`
(totalised with `getD`) is the last element. -/
theorem getD_length_sub_one_eq_getLast (be : List brigadeEntry)
    (hne : be ≠ []) :
    be[be.length - 1]?.getD default = be.getLast hne := by
  have hlen : 0 < be.length := List.length_pos.mpr hne
  rw [List.getLast_eq_getElem, List.getElem?_eq_getElem (by omega)]
  rfl

/-- C1 counterexample input: the first grouping entry ends in the future but
carries an empty trip id. -/
def c1be : List brigadeEntry :=
  [⟨"", "s1", (0, 0), "25:00:00", ⟨25, 0, 0, false⟩⟩,
   ⟨"t2", "s2", (0, 0), "26:00:00", ⟨26, 0, 0, false⟩⟩]

/-- C1 reference time (uncertain wall clock 12:00:00). -/
def c1cst : compareTime := ⟨12, 0, 0, true⟩

/-- C1: counterexample to the claim as stated. On `c1be` (non-empty, all
last-stop times certain) with uncertain reference time `c1cst`, the first
entry whose `LastStopTime` is `After c1cst` is the first entry, whose
`TripID` is `""` — but `MatchTripNoPV` sets the vehicle's trip to `"t2"`
(the last entry), because the empty-trip fallback of part_009 lines 104-106
also fires when the matched entry's trip id is empty. -/
theorem matchTripNoPV_counterexample :
    (default : Vehicle).Trip = "" ∧ c1be ≠ [] ∧
    (∀ e ∈ c1be, e.LastStopTime.uncertainDay = false) ∧
    c1cst.uncertainDay = true ∧
    (c1be.find? fun b => b.LastStopTime.After c1cst = Except.ok true).map
        brigadeEntry.TripID = some "" ∧
    Vehicle.MatchTripNoPV default c1cst c1be =
      Except.ok { (default : Vehicle) with Trip := "t2" } ∧
    ("t2" : String) ≠ "" := by
  refine ⟨rfl, by simp [c1be], by decide, rfl, by decide, by decide, by decide⟩

/-- C1 (amended): for every non-empty brigade grouping `be` of certain
last-stop times and every uncertain reference time `cst`, applied to a
vehicle whose `Trip` field is empty, `MatchTripNoPV` returns without error
and sets the trip to the `TripID` of the first entry whose `LastStopTime` is
`After cst` provided that id is non-empty; when no entry is `After cst`, or
the first such entry's `TripID` is empty, it sets the trip to the `TripID`
of the last entry. -/
theorem matchTripNoPV_first_after (v : Vehicle) (cst : compareTime)
    (be : List brigadeEntry) (hne : be ≠ [])
    (hcert : ∀ e ∈ be, e.LastStopTime.uncertainDay = false)
    (hcst : cst.uncertainDay = true) (hv : v.Trip = "") :
    ∃ v1, v.MatchTripNoPV cst be = Except.ok v1 ∧
      v1.Trip =
        match be.find? fun b => b.LastStopTime.After cst = Except.ok true with
        | some b => if b.TripID = "" then (be.getLast hne).TripID else b.TripID
        | none => (be.getLast hne).TripID := by
  unfold Vehicle.MatchTripNoPV
  rw [matchTripNoPVScan_eq_find cst be hcert]
  cases hf : be.find? fun b => b.LastStopTime.After cst = Except.ok true with
  | none =>
    refine ⟨_, rfl, ?_⟩
    simp [hv, getD_length_sub_one_eq_getLast be hne]
  | some b =>
    refine ⟨_, rfl, ?_⟩
    by_cases hb : b.TripID = ""
    · simp [hb, getD_length_sub_one_eq_getLast be hne]
    · simp [hb]

/-- C1 witness grouping (spec scenario S3): trip A ends 11:30:00, trip B
ends 12:30:00. -/
def c1wbe : List brigadeEntry :=
  [⟨"A", "X", (0, 0), "11:30:00", ⟨11, 30, 0, false⟩⟩,
   ⟨"B", "Y", (0, 0), "12:30:00", ⟨12, 30, 0, false⟩⟩]

/-- Witness for C1 (amended), spec scenario S3: with wall clock 11:45:00 the
matched trip is B. -/
theorem matchTripNoPV_first_after_witness :
    (Vehicle.MatchTripNoPV default ⟨11, 45, 0, true⟩ c1wbe).map Vehicle.Trip =
      Except.ok "B" := by
  obtain ⟨v1, h1, h2⟩ := matchTripNoPV_first_after default ⟨11, 45, 0, true⟩
    c1wbe (by simp [c1wbe]) (by decide) rfl rfl
  rw [h1]
  show Except.ok v1.Trip = Except.ok "B"
  rw [h2]
  decide

/-- A certain `compareTime` subtracts without error: its `Since` evaluates to
the adjusted-seconds difference. -/
theorem compareTime.Since_certain (t o : compareTime)
    (h : t.uncertainDay = false) :
    t.Since o = Except.ok (t.Seconds -
      (if o.uncertainDay = true ∧ 24 ≤ t.h ∧ o.h ≤ 3
       then o.Seconds + 86400 else o.Seconds)) := by
  simp [compareTime.Since, h]

/-- C2: behaviour of `MatchTripWithPV` on a grouping of certain last-stop
times: when the previous trip is absent from the grouping it behaves as the
no-prev match; when it is the last entry the previous trip is kept; when it
occurs at index `i < len(be)-1` the vehicle advances to `be[i+1].TripID`
exactly when (haversine to `be[i]`'s terminal ≤ 0.05 km and
`be[i].LastStopTime.Since(cst) < 240`) or `Since(cst) < -1800`, and
otherwise keeps `pv.Trip`. Proved for every haversine function. -/
theorem matchTripWithPV_spec (haversine : GeoFn) (v pv : Vehicle)
    (cst : compareTime) (be : List brigadeEntry)
    (hcert : ∀ e ∈ be, e.LastStopTime.uncertainDay = false) :
    (indexMatchingTrip be pv.Trip = -1 →
      Vehicle.MatchTripWithPV haversine v pv cst be = v.MatchTripNoPV cst be) ∧
    (be ≠ [] → indexMatchingTrip be pv.Trip = (be.length : Int) - 1 →
      Vehicle.MatchTripWithPV haversine v pv cst be =
        Except.ok { v with Trip := pv.Trip }) ∧
    (∀ i : Nat, indexMatchingTrip be pv.Trip = (i : Int) →
      i < be.length - 1 →
      ∃ sec, (be.getD i default).LastStopTime.Since cst = Except.ok sec ∧
        Vehicle.MatchTripWithPV haversine v pv cst be = Except.ok
          { v with Trip :=
              if (haversine v.Lat v.Lon (be.getD i default).LastStopPos.1
                    (be.getD i default).LastStopPos.2 ≤ (5 / 100 : Rat) ∧
                  sec < 240) ∨ sec < -1800
              then (be.getD (i + 1) default).TripID
              else pv.Trip }) := by
  refine ⟨?_, ?_, ?_⟩
  · intro h
    simp only [Vehicle.MatchTripWithPV, h]
    norm_num
  · intro hne h
    have hlen : 0 < be.length := List.length_pos.mpr hne
    simp only [Vehicle.MatchTripWithPV, h]
    rw [if_neg (by omega)]
    simp
  · intro i hi hlt
    have hlen : i + 1 < be.length := by omega
    have hmem : be.getD i default ∈ be := by
      rw [List.getD_eq_getElem?_getD, List.getElem?_eq_getElem (by omega)]
      exact List.getElem_mem _
    have hc := hcert _ hmem
    refine ⟨_, compareTime.Since_certain _ _ hc, ?_⟩
    simp only [Vehicle.MatchTripWithPV, hi]
    rw [if_neg (by omega), if_neg (by omega)]
    rw [Int.toNat_natCast]
    rw [compareTime.Since_certain _ _ hc]
    have key : ∀ (c : Prop) (hcD : Decidable c) (t1 t2 : String),
        (if c then Except.ok { v with Trip := t1 }
         else Except.ok { v with Trip := t2 }) =
        (Except.ok { v with Trip := if c then t1 else t2 } :
          Except invalidCompareTimeComparison Vehicle) := by
      intro c hcD t1 t2
      split <;> simp_all
    exact key _ _ _ _

/-- C2 witness grouping (spec scenario S4). -/
def c2wbe : List brigadeEntry :=
  [⟨"A", "X", (0, 0), "11:30:00", ⟨11, 30, 0, false⟩⟩,
   ⟨"B", "Y", (0, 0), "12:30:00", ⟨12, 30, 0, false⟩⟩]

/-- C2 witness previous vehicle: matched to trip A. -/
def c2pv : Vehicle := { (default : Vehicle) with Trip := "A" }

/-- C2 witness distance function: the vehicle is a constant 30 m from every
point, in particular within 50 m of X. -/
def c2hv : GeoFn := fun _ _ _ _ => (3 / 100 : Rat)

/-- Witness for C2 (spec scenario S4): wall clock 11:29:30, vehicle within
50 m of terminal X: the matcher advances to trip B. -/
theorem matchTripWithPV_spec_witness :
    Vehicle.MatchTripWithPV c2hv default c2pv ⟨11, 29, 30, true⟩ c2wbe =
      Except.ok { (default : Vehicle) with Trip := "B" } := by
  obtain ⟨sec, hsec, hres⟩ :=
    (matchTripWithPV_spec c2hv default c2pv ⟨11, 29, 30, true⟩ c2wbe
      (by decide)).2.2 0 (by decide) (by decide)
  have hsec30 : sec = 30 := by
    have h30 : (c2wbe.getD 0 default).LastStopTime.Since ⟨11, 29, 30, true⟩ =
        Except.ok 30 := by decide
    rw [h30] at hsec
    exact (Except.ok.inj hsec).symm
  subst hsec30
  rw [hres]
  norm_num [c2hv, c2wbe, c2pv, List.getD_cons_zero, List.getD_cons_succ]

/-- Go method `VehicleContainer.MatchAll` (part_009 lines 269-294) on the
container's vehicle map, modelled as an association list (Go map iteration
order is immaterial to the claims below: each key is processed
independently). `brigadeMap` and `prevVehicles` model Go map lookups with
their zero values (empty slice, nil pointer). -/
def MatchAll (haversine initialBearing : GeoFn)
    (brigadeMap : String → List brigadeEntry)
    (prevVehicles : String → Option Vehicle) (cst : compareTime) :
    List (String × Vehicle) →
      Except invalidCompareTimeComparison (List (String × Vehicle))
  | [] => Except.ok []
  | (vID, v) :: rest =>
    match Vehicle.MatchTrip haversine v (prevVehicles vID) cst (brigadeMap vID) with
    | Except.error e => Except.error e
    | Except.ok v1 =>
      match MatchAll haversine initialBearing brigadeMap prevVehicles cst rest with
      | Except.error e => Except.error e
      | Except.ok tail =>
        if v1.Trip = "" then Except.ok tail
        else Except.ok
          ((vID, v1.CalculateBearing haversine initialBearing (prevVehicles vID))
            :: tail)

/-- `CalculateBearing` never touches the `Trip` field. -/
theorem calculateBearing_trip (haversine initialBearing : GeoFn)
    (v : Vehicle) (pv : Option Vehicle) :
    (v.CalculateBearing haversine initialBearing pv).Trip = v.Trip := by
  cases pv with
  | none => rfl
  | some pvv =>
    simp only [Vehicle.CalculateBearing]
    split <;> rfl

/-- Every key surviving `MatchAll` comes from the input map. -/
theorem matchAll_keys (haversine initialBearing : GeoFn)
    (brigadeMap : String → List brigadeEntry)
    (prevVehicles : String → Option Vehicle) (cst : compareTime) :
    ∀ (l out : List (String × Vehicle)),
      MatchAll haversine initialBearing brigadeMap prevVehicles cst l =
        Except.ok out →
      ∀ q ∈ out, ∃ p ∈ l, q.1 = p.1 := by
  intro l
  induction l with
  | nil =>
    intro out h q hq
    simp only [MatchAll] at h
    cases h
    simp at hq
  | cons hd rest ih =>
    intro out h q hq
    obtain ⟨k, v⟩ := hd
    cases hmt : Vehicle.MatchTrip haversine v (prevVehicles k) cst (brigadeMap k) with
    | error e => simp only [MatchAll, hmt] at h; cases h
    | ok v1 =>
      cases hma : MatchAll haversine initialBearing brigadeMap prevVehicles cst rest with
      | error e => simp only [MatchAll, hmt, hma] at h; cases h
      | ok tail =>
        simp only [MatchAll, hmt, hma] at h
        by_cases htrip : v1.Trip = ""
        · rw [if_pos htrip] at h
          cases h
          obtain ⟨p, hp, hq1⟩ := ih _ hma q hq
          exact ⟨p, List.mem_cons_of_mem _ hp, hq1⟩
        · rw [if_neg htrip] at h
          cases h
          rcases List.mem_cons.mp hq with hq | hq
          · exact ⟨(k, v), List.mem_cons_self _ _, by rw [hq]⟩
          · obtain ⟨p, hp, hq1⟩ := ih _ hma q hq
            exact ⟨p, List.mem_cons_of_mem _ hp, hq1⟩

/-- Every vehicle surviving `MatchAll` has a non-empty trip. -/
theorem matchAll_trip_nonempty (haversine initialBearing : GeoFn)
    (brigadeMap : String → List brigadeEntry)
    (prevVehicles : String → Option Vehicle) (cst : compareTime) :
    ∀ (l out : List (String × Vehicle)),
      MatchAll haversine initialBearing brigadeMap prevVehicles cst l =
        Except.ok out →
      ∀ q ∈ out, (q.2).Trip ≠ "" := by
  intro l
  induction l with
  | nil =>
    intro out h q hq
    simp only [MatchAll] at h
    cases h
    simp at hq
  | cons hd rest ih =>
    intro out h q hq
    obtain ⟨k, v⟩ := hd
    cases hmt : Vehicle.MatchTrip haversine v (prevVehicles k) cst (brigadeMap k) with
    | error e => simp only [MatchAll, hmt] at h; cases h
    | ok v1 =>
      cases hma : MatchAll haversine initialBearing brigadeMap prevVehicles cst rest with
      | error e => simp only [MatchAll, hmt, hma] at h; cases h
      | ok tail =>
        simp only [MatchAll, hmt, hma] at h
        by_cases htrip : v1.Trip = ""
        · rw [if_pos htrip] at h
          cases h
          exact ih _ hma q hq
        · rw [if_neg htrip] at h
          cases h
          rcases List.mem_cons.mp hq with hq | hq
          · rw [hq]
            simpa [calculateBearing_trip] using htrip
          · exact ih _ hma q hq

/-- A vehicle whose matching left the trip empty does not survive
`MatchAll` (keys assumed distinct, as they are in a Go map). -/
theorem matchAll_removed (haversine initialBearing : GeoFn)
    (brigadeMap : String → List brigadeEntry)
    (prevVehicles : String → Option Vehicle) (cst : compareTime) :
    ∀ (l out : List (String × Vehicle)), (l.map Prod.fst).Nodup →
      MatchAll haversine initialBearing brigadeMap prevVehicles cst l =
        Except.ok out →
      ∀ p ∈ l, ∀ v1,
        Vehicle.MatchTrip haversine p.2 (prevVehicles p.1) cst (brigadeMap p.1) =
          Except.ok v1 →
        v1.Trip = "" → ∀ q ∈ out, q.1 ≠ p.1 := by
  intro l
  induction l with
  | nil =>
    intro out _ h p hp
    simp at hp
  | cons hd rest ih =>
    intro out hnd h p hp v1 hv1 hv1e q hq
    obtain ⟨k, v⟩ := hd
    have hnd2 : (rest.map Prod.fst).Nodup := (List.nodup_cons.mp hnd).2
    have hknotin : k ∉ rest.map Prod.fst := (List.nodup_cons.mp hnd).1
    cases hmt : Vehicle.MatchTrip haversine v (prevVehicles k) cst (brigadeMap k) with
    | error e => simp only [MatchAll, hmt] at h; cases h
    | ok w =>
      cases hma : MatchAll haversine initialBearing brigadeMap prevVehicles cst rest with
      | error e => simp only [MatchAll, hmt, hma] at h; cases h
      | ok tail =>
        simp only [MatchAll, hmt, hma] at h
        by_cases htrip : w.Trip = ""
        · rw [if_pos htrip] at h
          cases h
          rcases List.mem_cons.mp hp with hp | hp
          · -- p is the head entry, already dropped: out keys live in rest
            obtain ⟨p2, hp2, hq1⟩ :=
              matchAll_keys haversine initialBearing brigadeMap prevVehicles cst
                rest _ hma q hq
            rw [hq1, hp]
            intro hcon
            have hmem2 : p2.1 ∈ rest.map Prod.fst :=
              List.mem_map_of_mem Prod.fst hp2
            rw [hcon] at hmem2
            exact hknotin hmem2
          · exact ih _ hnd2 hma p hp v1 hv1 hv1e q hq
        · rw [if_neg htrip] at h
          cases h
          rcases List.mem_cons.mp hp with hp | hp
          · -- p is the head entry and was kept: but then its trip is non-empty
            have hw : w = v1 := by
              have := hmt.symm.trans (hp ▸ hv1)
              exact Except.ok.inj this
            exact absurd (hw ▸ hv1e :) htrip
          · rcases List.mem_cons.mp hq with hq | hq
            · rw [hq]
              intro hcon
              have hmem2 : p.1 ∈ rest.map Prod.fst :=
                List.mem_map_of_mem Prod.fst hp
              rw [← hcon] at hmem2
              exact hknotin hmem2
            · exact ih _ hnd2 hma p hp v1 hv1 hv1e q hq

/-- C5: after a successful `MatchAll` on a prepared container (all trips
initially empty, distinct keys), every surviving vehicle has a non-empty
`Trip`; every vehicle whose matching left the trip empty — in particular
every vehicle whose id has no brigade-map entry — has been removed. -/
theorem matchAll_filter_spec (haversine initialBearing : GeoFn)
    (brigadeMap : String → List brigadeEntry)
    (prevVehicles : String → Option Vehicle) (cst : compareTime)
    (vehicles out : List (String × Vehicle))
    (hprep : ∀ p ∈ vehicles, (p.2).Trip = "")
    (hkeys : (vehicles.map Prod.fst).Nodup)
    (hok : MatchAll haversine initialBearing brigadeMap prevVehicles cst
      vehicles = Except.ok out) :
    (∀ q ∈ out, (q.2).Trip ≠ "") ∧
    (∀ p ∈ vehicles, ∀ v1,
      Vehicle.MatchTrip haversine p.2 (prevVehicles p.1) cst (brigadeMap p.1) =
        Except.ok v1 →
      v1.Trip = "" → ∀ q ∈ out, q.1 ≠ p.1) ∧
    (∀ p ∈ vehicles, brigadeMap p.1 = [] → ∀ q ∈ out, q.1 ≠ p.1) := by
  refine ⟨matchAll_trip_nonempty haversine initialBearing brigadeMap
      prevVehicles cst vehicles out hok,
    matchAll_removed haversine initialBearing brigadeMap prevVehicles cst
      vehicles out hkeys hok, ?_⟩
  intro p hp hbm q hq
  have hmt : Vehicle.MatchTrip haversine p.2 (prevVehicles p.1) cst
      (brigadeMap p.1) = Except.ok p.2 := by
    simp [Vehicle.MatchTrip, hbm]
  exact matchAll_removed haversine initialBearing brigadeMap prevVehicles cst
    vehicles out hkeys hok p hp p.2 hmt (hprep p hp) q hq

/-- C5 witness vehicles: one prepared vehicle with an empty trip. -/
def c5veh : List (String × Vehicle) := [("V/1/1", default)]

/-- C5 witness brigade map: no entries for any id. -/
def c5bm : String → List brigadeEntry := fun _ => []

/-- C5 witness previous vehicles: none. -/
def c5pv : String → Option Vehicle := fun _ => none

/-- C5 witness geometry function. -/
def c5geo : GeoFn := fun _ _ _ _ => 0

/-- Witness for C5: with an empty brigade map the only vehicle is filtered
out and the surviving map is empty, so all three conclusions hold. -/
theorem matchAll_filter_spec_witness :
    (∀ q ∈ ([] : List (String × Vehicle)), (q.2).Trip ≠ "") ∧
    (∀ p ∈ c5veh, ∀ v1,
      Vehicle.MatchTrip c5geo p.2 (c5pv p.1) ⟨0, 0, 0, true⟩ (c5bm p.1) =
        Except.ok v1 →
      v1.Trip = "" → ∀ q ∈ ([] : List (String × Vehicle)), q.1 ≠ p.1) ∧
    (∀ p ∈ c5veh, c5bm p.1 = [] →
      ∀ q ∈ ([] : List (String × Vehicle)), q.1 ≠ p.1) :=
  matchAll_filter_spec c5geo c5geo c5bm c5pv ⟨0, 0, 0, true⟩ c5veh []
    (by intro p hp; simp [c5veh] at hp; rw [hp]; rfl)
    (by simp [c5veh]) rfl

/-! Static GTFS tables, from `src/warsawgtfs_realtime.go` (the current
`gtfs` package: structs at lines 258-281), and the brigade loader from
`src/realtime/positions/brigadehandler.go`. -/

/-- Go struct `StopTime` (warsawgtfs_realtime.go lines 258-262). `Sequence`
is an `int16` in Go; it is modelled as an `Int` produced by the explicit
narrowing `toInt16` below. -/
structure StopTime where
  StopID : String
  Timepoint : String
  Sequence : Int
deriving DecidableEq, Repr

/-- Go struct `TripData` (warsawgtfs_realtime.go lines 264-269). -/
structure TripData where
  Route : String
  Service : String
  Brigade : String
  LastStopTime : StopTime
deriving DecidableEq, Repr

/-- Go struct `Gtfs` (warsawgtfs_realtime.go lines 272-281), restricted to
the tables the claims use (`Routes` is omitted: no claim touches it).
`Trips` is an association list standing for the Go map — its order stands
for one map iteration order, which is immaterial to the claims below;
`Stops` and `Services` model Go map lookup with the zero values `[0 0]`
resp. `false` for missing keys. -/
structure Gtfs where
  Stops : String → Rat × Rat
  Services : String → Bool
  Trips : List (String × TripData)

/-- Value of a maximal leading decimal-digit run. -/
def digitsToNat (ds : List Char) : Nat :=
  ds.foldl (fun acc c => acc * 10 + (c.toNat - 48)) 0

/-- Decimal-integer scanner modelling the `%d` verb of `fmt.Sscanf`
(standard-library code): an optional minus sign followed by a maximal
non-empty digit run; returns the value and the rest of the input. -/
def scanDecInt (l : List Char) : Option (Int × List Char) :=
  match l with
  | '-' :: rest =>
    let ds := rest.takeWhile Char.isDigit
    if ds = [] then none
    else some (-(Int.ofNat (digitsToNat ds)), rest.drop ds.length)
  | _ =>
    let ds := l.takeWhile Char.isDigit
    if ds = [] then none
    else some (Int.ofNat (digitsToNat ds), l.drop ds.length)

/-- Go function `newCompareTimeFromGtfs` (time.go lines 24-28), which parses
`"%d:%d:%d"` with `fmt.Sscanf`: a decimal integer, a colon, a decimal
integer, a colon, a decimal integer (any remaining characters are ignored,
as `Sscanf` stops after its verbs). Produces a certain `compareTime`. -/
def newCompareTimeFromGtfs (hms : String) : Option compareTime :=
  match scanDecInt hms.data with
  | none => none
  | some (h, r1) =>
    match r1 with
    | ':' :: r2 =>
      match scanDecInt r2 with
      | none => none
      | some (m, r3) =>
        match r3 with
        | ':' :: r4 =>
          match scanDecInt r4 with
          | none => none
          | some (s, _) => some ⟨h, m, s, false⟩
        | _ => none
    | _ => none

/-- Go `m[key] = append(m[key], &entry)` on the association-list map:
append under an existing key, or add a new key at the end. -/
def brigadeMapAppend :
    List (String × List brigadeEntry) → String → brigadeEntry →
      List (String × List brigadeEntry)
  | [], k, e => [(k, [e])]
  | (k1, l) :: rest, k, e =>
    if k1 = k then (k1, l ++ [e]) :: rest
    else (k1, l) :: brigadeMapAppend rest k e

/-- The trip-scanning loop of `loadBrigades` (brigadehandler.go lines
25-46). The error carries the offending timepoint string. -/
def loadBrigadesLoop (g : Gtfs) :
    List (String × TripData) → List (String × List brigadeEntry) →
      Except String (List (String × List brigadeEntry))
  | [], m => Except.ok m
  | (id, data) :: rest, m =>
    if ¬g.Services data.Service = true ∨ data.LastStopTime.Timepoint = "" then
      loadBrigadesLoop g rest m
    else
      match newCompareTimeFromGtfs data.LastStopTime.Timepoint with
      | none => Except.error data.LastStopTime.Timepoint
      | some lastStopTime =>
        loadBrigadesLoop g rest (brigadeMapAppend m
          ("V/" ++ data.Route ++ "/" ++ data.Brigade)
          ⟨id, data.LastStopTime.StopID, g.Stops data.LastStopTime.StopID,
            data.LastStopTime.Timepoint, lastStopTime⟩)

/-- Go function `loadBrigades` (brigadehandler.go lines 22-55): scan the
trips, then sort each grouping by `LastStopTimepoint` (Go `slices.SortFunc`
with `cmp.Compare` on strings; `List.mergeSort` realises the same
specification — a sorted permutation — the Go sort being unstable). -/
def loadBrigades (g : Gtfs) :
    Except String (List (String × List brigadeEntry)) :=
  match loadBrigadesLoop g g.Trips [] with
  | Except.error e => Except.error e
  | Except.ok m =>
    Except.ok (m.map fun kl =>
      (kl.1, kl.2.mergeSort fun a b =>
        a.LastStopTimepoint ≤ b.LastStopTimepoint))

/-- The per-entry property C6 requires of every grouping member: the entry
comes from an active trip of the table with a non-empty last-stop
timepoint. -/
def goodEntry (g : Gtfs) (e : brigadeEntry) : Prop :=
  ∃ id data, (id, data) ∈ g.Trips ∧ g.Services data.Service = true ∧
    data.LastStopTime.Timepoint ≠ "" ∧ e.TripID = id ∧
    e.LastStopTimepoint = data.LastStopTime.Timepoint

/-- `brigadeMapAppend` preserves the groupings invariant (non-emptiness and
the per-entry property). -/
theorem brigadeMapAppend_inv (g : Gtfs) (e : brigadeEntry)
    (he : goodEntry g e) :
    ∀ (m : List (String × List brigadeEntry)) (k : String),
      (∀ kl ∈ m, kl.2 ≠ [] ∧ ∀ x ∈ kl.2, goodEntry g x) →
      ∀ kl ∈ brigadeMapAppend m k e, kl.2 ≠ [] ∧ ∀ x ∈ kl.2, goodEntry g x := by
  intro m
  induction m with
  | nil =>
    intro k _ kl hkl
    simp only [brigadeMapAppend, List.mem_singleton] at hkl
    subst hkl
    exact ⟨by simp, by intro x hx; simp at hx; rw [hx]; exact he⟩
  | cons hd rest ih =>
    intro k hinv kl hkl
    obtain ⟨k1, l⟩ := hd
    by_cases hk : k1 = k
    · rw [brigadeMapAppend, if_pos hk] at hkl
      rcases List.mem_cons.mp hkl with hkl | hkl
      · subst hkl
        refine ⟨by simp, ?_⟩
        intro x hx
        rcases List.mem_append.mp hx with hx | hx
        · exact (hinv (k1, l) (List.mem_cons_self _ _)).2 x hx
        · rw [List.mem_singleton.mp hx]
          exact he
      · exact hinv kl (List.mem_cons_of_mem _ hkl)
    · rw [brigadeMapAppend, if_neg hk] at hkl
      rcases List.mem_cons.mp hkl with hkl | hkl
      · subst hkl
        exact hinv (k1, l) (List.mem_cons_self _ _)
      · exact ih k (fun kl2 hkl2 => hinv kl2 (List.mem_cons_of_mem _ hkl2))
          kl hkl

/-- Invariant of the `loadBrigades` scanning loop. -/
theorem loadBrigadesLoop_inv (g : Gtfs) :
    ∀ (todo : List (String × TripData))
      (m out : List (String × List brigadeEntry)),
      (∀ p ∈ todo, p ∈ g.Trips) →
      (∀ kl ∈ m, kl.2 ≠ [] ∧ ∀ x ∈ kl.2, goodEntry g x) →
      loadBrigadesLoop g todo m = Except.ok out →
      ∀ kl ∈ out, kl.2 ≠ [] ∧ ∀ x ∈ kl.2, goodEntry g x := by
  intro todo
  induction todo with
  | nil =>
    intro m out _ hinv h
    cases h
    exact hinv
  | cons hd rest ih =>
    intro m out htodo hinv h
    obtain ⟨id, data⟩ := hd
    by_cases hskip : ¬g.Services data.Service = true ∨
        data.LastStopTime.Timepoint = ""
    · rw [loadBrigadesLoop, if_pos hskip] at h
      exact ih m out (fun p hp => htodo p (List.mem_cons_of_mem _ hp)) hinv h
    · rw [loadBrigadesLoop, if_neg hskip] at h
      push_neg at hskip
      cases hparse : newCompareTimeFromGtfs data.LastStopTime.Timepoint with
      | none => rw [hparse] at h; cases h
      | some lastStopTime =>
        rw [hparse] at h
        refine ih _ out (fun p hp => htodo p (List.mem_cons_of_mem _ hp))
          (brigadeMapAppend_inv g _ ?_ m _ hinv) h
        exact ⟨id, data, htodo (id, data) (List.mem_cons_self _ _),
          hskip.1, hskip.2, rfl, rfl⟩

/-- C6: every grouping produced by a successful `loadBrigades` is non-empty,
contains only entries of active trips with non-empty last-stop timepoints,
and is sorted non-decreasingly by the `LastStopTimepoint` strings. -/
theorem loadBrigades_spec (g : Gtfs)
    (m : List (String × List brigadeEntry))
    (hok : loadBrigades g = Except.ok m) :
    ∀ kl ∈ m, kl.2 ≠ [] ∧
      (∀ e ∈ kl.2, ∃ id data, (id, data) ∈ g.Trips ∧
        g.Services data.Service = true ∧
        data.LastStopTime.Timepoint ≠ "" ∧ e.TripID = id ∧
        e.LastStopTimepoint = data.LastStopTime.Timepoint) ∧
      List.Sorted (fun a b : brigadeEntry =>
        a.LastStopTimepoint ≤ b.LastStopTimepoint) kl.2 := by
  unfold loadBrigades at hok
  cases hloop : loadBrigadesLoop g g.Trips [] with
  | error e => rw [hloop] at hok; cases hok
  | ok m0 =>
    rw [hloop] at hok
    cases hok
    have hinv := loadBrigadesLoop_inv g g.Trips [] m0
      (fun p hp => hp) (by simp) hloop
    intro kl hkl
    obtain ⟨kl0, hkl0, hmap⟩ := List.mem_map.mp hkl
    obtain ⟨hne0, hgood0⟩ := hinv kl0 hkl0
    subst hmap
    refine ⟨?_, ?_, ?_⟩
    · intro hcon
      exact hne0 (List.eq_nil_of_length_eq_zero
        (by simpa [List.length_mergeSort] using congrArg List.length hcon))
    · intro e hemem
      exact hgood0 e (List.mem_mergeSort.mp hemem)
    · have hs := @List.sorted_mergeSort brigadeEntry
        (fun a b : brigadeEntry =>
          decide (a.LastStopTimepoint ≤ b.LastStopTimepoint))
        (fun a b c h1 h2 => by
          simp only [decide_eq_true_iff] at h1 h2 ⊢
          exact le_trans h1 h2)
        (fun a b => by
          simp only [Bool.or_eq_true, decide_eq_true_iff]
          exact le_total _ _)
        kl0.2
      exact hs.imp fun h => of_decide_eq_true h

/-- C6 witness GTFS table: one active trip with a valid timepoint. -/
def c6g : Gtfs :=
  { Stops := fun _ => (0, 0)
    Services := fun s => s = "S"
    Trips := [("T1", ⟨"R", "S", "1", ⟨"stop", "11:30:00", 1⟩⟩)] }

/-- C6 witness grouping entry, as built by `loadBrigades` from `c6g`. -/
def c6entry : brigadeEntry :=
  ⟨"T1", "stop", (0, 0), "11:30:00", ⟨11, 30, 0, false⟩⟩

/-- Witness for C6: `loadBrigades` on `c6g` yields the singleton grouping
for key `V/R/1`, which satisfies all three conclusions. -/
theorem loadBrigades_spec_witness :
    [c6entry] ≠ [] ∧
    (∀ e ∈ [c6entry], ∃ id data, (id, data) ∈ c6g.Trips ∧
      c6g.Services data.Service = true ∧
      data.LastStopTime.Timepoint ≠ "" ∧ e.TripID = id ∧
      e.LastStopTimepoint = data.LastStopTime.Timepoint) ∧
    List.Sorted (fun a b : brigadeEntry =>
      a.LastStopTimepoint ≤ b.LastStopTimepoint) [c6entry] :=
  loadBrigades_spec c6g [("V/R/1", [c6entry])] (by
      simp [loadBrigades, loadBrigadesLoop, brigadeMapAppend, c6g, c6entry,
        newCompareTimeFromGtfs, scanDecInt, digitsToNat])
    ("V/R/1", [c6entry]) (List.mem_singleton.mpr rfl)

/-! Time-string helper from `src/unnamed/part_008` (Go package `util`). -/

/-- Go `strconv.ParseUint(s, 10, 8)` (standard library): a non-empty run of
decimal digits whose value fits 8 bits; anything else errors. -/
def parseUint8 (s : List Char) : Option Nat :=
  if s = [] then none
  else if s.all Char.isDigit then
    if digitsToNat s < 256 then some (digitsToNat s) else none
  else none

/-- Go function `ParseTimeToSeconds` (part_008 lines 72-97). In the
three-component case the source parses `parts[1]` — the minutes field —
again for the seconds component (line 90). The Go result is a `uint32`,
reduced modulo 2^32 here (h, m, s ≤ 255, so no overflow occurs). -/
def ParseTimeToSeconds (x : String) : Option Nat :=
  match x.data.splitOn ':' with
  | [hS, mS] =>
    match parseUint8 hS, parseUint8 mS with
    | some h, some m => some ((h * 3600 + m * 60) % 4294967296)
    | _, _ => none
  | [hS, mS, _sS] =>
    match parseUint8 hS, parseUint8 mS with
    | some h, some m =>
      match parseUint8 mS with
      | some s => some ((h * 3600 + m * 60 + s) % 4294967296)
      | none => none
    | _, _ => none
  | _ => none

/-- C4 (evaluating the code at the failing input): on `"0:1:2"` the source
returns 0·3600 + 1·60 + 1 = 61, because line 90 of part_008 reads
`parts[1]` for the seconds component; the documented behaviour
(h·3600 + m·60 + s, with s from the third field) would give 62. -/
theorem parseTimeToSeconds_bug :
    ParseTimeToSeconds "0:1:2" = some 61 ∧
    (61 : Nat) ≠ 0 * 3600 + 1 * 60 + 2 := by
  constructor
  · rfl
  · decide

/-! Output stage of `positions.Create`, from `src/unnamed/part_001` (second
Go source in that file, lines 114-127 of the combined file) and the older
variant kept in the file `src/realtime/alerts/main.go` (second Go source in
that file, lines 158-169). -/

/-- Go struct `Options` of package `positions` (part_001). -/
structure Options where
  GtfsRtTarget : String
  JSONTarget : String
  HumanReadable : Bool
  Apikey : String
deriving DecidableEq, Repr

/-- An observable file write performed by the export stage. -/
inductive WriteEvent where
  | json (target : String)
  | pb (target : String) (humanReadable : Bool)
deriving DecidableEq, Repr

/-- The export stage (steps 4 and 5) of the current `positions.Create`
(part_001): on the success path it writes the JSON sidecar when
`JSONTarget` is set, and the protocol-buffer feed when `GtfsRtTarget` is
set. -/
def CreateExports (opts : Options) : List WriteEvent :=
  (if opts.JSONTarget ≠ "" then [WriteEvent.json opts.JSONTarget] else []) ++
  (if opts.GtfsRtTarget ≠ ""
   then [WriteEvent.pb opts.GtfsRtTarget opts.HumanReadable] else [])

/-- The export stage of the older `positions.Create` variant (the second Go
source inside src/realtime/alerts/main.go, lines 166-169), which guarded the
protocol-buffer write behind `opts.JSONTarget` — the bug the spec notes. -/
def CreateExportsOld (opts : Options) : List WriteEvent :=
  (if opts.JSONTarget ≠ "" then [WriteEvent.json opts.JSONTarget] else []) ++
  (if opts.JSONTarget ≠ ""
   then [WriteEvent.pb opts.GtfsRtTarget opts.HumanReadable] else [])

/-- C9: with a non-empty `GtfsRtTarget`, a successful pass of the current
`positions.Create` writes the protocol-buffer feed, whatever the
`JSONTarget` — in particular for every override of the `JSONTarget`
field. -/
theorem createExports_pb_unconditional (opts : Options)
    (h : opts.GtfsRtTarget ≠ "") :
    WriteEvent.pb opts.GtfsRtTarget opts.HumanReadable ∈ CreateExports opts ∧
    (∀ jt : String, WriteEvent.pb opts.GtfsRtTarget opts.HumanReadable ∈
      CreateExports { opts with JSONTarget := jt }) := by
  constructor
  · simp [CreateExports, h]
  · intro jt
    simp [CreateExports, h]

/-- Witness for C9: with `GtfsRtTarget = "positions.pb"` and an empty
`JSONTarget` the protocol buffer is still written. -/
theorem createExports_pb_unconditional_witness :
    WriteEvent.pb "positions.pb" false ∈
      CreateExports ⟨"positions.pb", "", false, ""⟩ ∧
    (∀ jt : String, WriteEvent.pb "positions.pb" false ∈
      CreateExports { (⟨"positions.pb", "", false, ""⟩ : Options) with
        JSONTarget := jt }) :=
  createExports_pb_unconditional ⟨"positions.pb", "", false, ""⟩ (by decide)

/-! The `stop_times.txt` loader of `src/warsawgtfs_realtime.go`
(`Gtfs.LoadStopTimes`, lines 598-663). -/

/-- Narrowing Go conversion `int16(u)` for `u < 2^16`. -/
def toInt16 (u : Nat) : Int :=
  if u < 32768 then (u : Int) else (u : Int) - 65536

/-- Go `strconv.ParseUint(s, 10, 16)`: a non-empty decimal digit run whose
value fits 16 bits. -/
def parseUint16 (s : List Char) : Option Nat :=
  if s = [] then none
  else if s.all Char.isDigit then
    if digitsToNat s < 65536 then some (digitsToNat s) else none
  else none

/-- One row of `stop_times.txt`, with the four columns `LoadStopTimes`
reads. -/
structure StopTimesRow where
  trip_id : String
  stop_id : String
  departure_time : String
  stop_sequence : String
deriving DecidableEq, Repr

/-- The per-row body of `Gtfs.LoadStopTimes` (warsawgtfs_realtime.go lines
630-660): reject an empty departure time or an unparsable sequence; then,
when the trip is defined, replace its stored last stop-time exactly when
the stored timepoint is empty or the stored sequence is less than the
row's int16-narrowed sequence. The trips map is a function to `Option`. -/
def loadStopTimesRow (trips : String → Option TripData)
    (row : StopTimesRow) : Except String (String → Option TripData) :=
  if row.departure_time = "" then
    Except.error "stop_times.txt is missing a departure_time"
  else
    match parseUint16 row.stop_sequence.data with
    | none => Except.error "stop_times contains invalid stop_sequence"
    | some stopSequence =>
      match trips row.trip_id with
      | none => Except.ok trips
      | some t =>
        if t.LastStopTime.Timepoint = "" ∨
            t.LastStopTime.Sequence < toInt16 stopSequence then
          Except.ok fun k =>
            if k = row.trip_id then
              some { t with LastStopTime :=
                ⟨row.stop_id, row.departure_time, toInt16 stopSequence⟩ }
            else trips k
        else Except.ok trips

/-- The row loop of `Gtfs.LoadStopTimes` (lines 616-661). -/
def LoadStopTimes (trips : String → Option TripData) :
    List StopTimesRow → Except String (String → Option TripData)
  | [] => Except.ok trips
  | row :: rest =>
    match loadStopTimesRow trips row with
    | Except.error e => Except.error e
    | Except.ok trips2 => LoadStopTimes trips2 rest

/-- The int16 narrowing never exceeds the original value. -/
theorem toInt16_le (u : Nat) : toInt16 u ≤ (u : Int) := by
  unfold toInt16
  split <;> omega

/-- C10: for a row whose trip is defined and whose stored last stop-time
has a non-empty timepoint, the `LoadStopTimes` row body succeeds, replaces
the stored entry only when the row's parsed `stop_sequence` strictly
exceeds the stored sequence, and leaves the map unchanged when the row's
sequence equals the stored one. -/
theorem loadStopTimesRow_spec (trips : String → Option TripData)
    (row : StopTimesRow) (t : TripData) (seqv : Nat)
    (ht : trips row.trip_id = some t)
    (htp : t.LastStopTime.Timepoint ≠ "")
    (hdep : row.departure_time ≠ "")
    (hseq : parseUint16 row.stop_sequence.data = some seqv) :
    ∃ trips2, loadStopTimesRow trips row = Except.ok trips2 ∧
      (trips2 row.trip_id ≠ some t → t.LastStopTime.Sequence < (seqv : Int)) ∧
      ((seqv : Int) = t.LastStopTime.Sequence → trips2 = trips) := by
  by_cases hrepl : t.LastStopTime.Timepoint = "" ∨
      t.LastStopTime.Sequence < toInt16 seqv
  · simp only [loadStopTimesRow, if_neg hdep, hseq, ht, if_pos hrepl]
    rcases hrepl with hrepl | hrepl
    · exact absurd hrepl htp
    · refine ⟨_, rfl, fun _ => lt_of_lt_of_le hrepl (toInt16_le seqv), ?_⟩
      intro heq
      exact absurd hrepl (by unfold toInt16; split <;> omega)
  · simp only [loadStopTimesRow, if_neg hdep, hseq, ht, if_neg hrepl]
    exact ⟨trips, rfl, fun hcon => absurd ht hcon, fun _ => rfl⟩

/-- C10 witness trips map: one trip `T1` with stored sequence 5 and a
non-empty timepoint. -/
def c10trips : String → Option TripData := fun k =>
  if k = "T1" then some ⟨"R", "S", "1", ⟨"stop", "11:30:00", 5⟩⟩ else none

/-- C10 witness row: same trip, sequence also 5 — the stored entry stays. -/
def c10row : StopTimesRow := ⟨"T1", "stop2", "11:40:00", "5"⟩

/-- Witness for C10: a row with `stop_sequence` equal to the stored
sequence leaves the map unchanged (and the general bound holds). -/
theorem loadStopTimesRow_spec_witness :
    ∃ trips2, loadStopTimesRow c10trips c10row = Except.ok trips2 ∧
      (trips2 c10row.trip_id ≠
          some ⟨"R", "S", "1", ⟨"stop", "11:30:00", 5⟩⟩ →
        (⟨"R", "S", "1", ⟨"stop", "11:30:00", 5⟩⟩ :
          TripData).LastStopTime.Sequence < ((5 : Nat) : Int)) ∧
      (((5 : Nat) : Int) =
          (⟨"R", "S", "1", ⟨"stop", "11:30:00", 5⟩⟩ :
            TripData).LastStopTime.Sequence →
        trips2 = c10trips) :=
  loadStopTimesRow_spec c10trips c10row _ 5 (by decide) (by decide)
    (by decide) (by decide)

/-! The resource poller from `src/unnamed/part_011` (Go package `util`). -/

/-- Go struct `ResourceLocal` (part_011 lines 34-39). `time.Time` instants
are modelled as integers (Unix nanoseconds): Go `a.After(b)` is `b < a`.
The spelling `Peroid` is the source's. -/
structure ResourceLocal where
  Path : String
  Checktime : Int
  Peroid : Int
  FetchedModified : Int
deriving DecidableEq, Repr

/-- Go struct `ResourceHTTP` (part_011 lines 84-91), without the HTTP
client handle. -/
structure ResourceHTTP where
  URL : String
  Checktime : Int
  Peroid : Int
  FetchedETag : String
  FetchedModified : Int
deriving DecidableEq, Repr

/-- Outcome of a `Check` call: the Go `(fetch, err)` return values, the
updated receiver, and whether any I/O (`os.Stat` resp. HTTP `HEAD`) was
performed. -/
structure CheckOutcome (ρ : Type) where
  fetch : Bool
  failed : Bool
  state : ρ
  didIO : Bool
deriving DecidableEq, Repr

/-- Go method `ResourceLocal.Check` (part_011 lines 43-62). The ambient
clock and the `os.Stat` outcome (`none` = stat error, `some t` = the file's
modification time) are explicit inputs. -/
def ResourceLocal.Check (r : ResourceLocal) (now : Int)
    (statResult : Option Int) : CheckOutcome ResourceLocal :=
  if now < r.Checktime + r.Peroid then ⟨false, false, r, false⟩
  else
    match statResult with
    | none => ⟨false, true, r, true⟩
    | some modTime =>
      ⟨decide (r.FetchedModified < modTime), false,
        { r with Checktime := now }, true⟩

/-- Go method `ResourceHTTP.Check` (part_011 lines 95-129). The `HEAD`
outcome is an explicit input: `none` = transport error; `some (etag, none)`
= `Last-Modified` parse failure; `some (etag, some lm)` = success. -/
def ResourceHTTP.Check (r : ResourceHTTP) (now : Int)
    (headResult : Option (String × Option Int)) : CheckOutcome ResourceHTTP :=
  if now < r.Checktime + r.Peroid then ⟨false, false, r, false⟩
  else
    match headResult with
    | none => ⟨false, true, r, true⟩
    | some (remoteETag, parsedLM) =>
      match parsedLM with
      | none => ⟨false, true, r, true⟩
      | some remoteModified =>
        ⟨if r.FetchedETag ≠ "" ∧ remoteETag ≠ ""
          then decide (r.FetchedETag ≠ remoteETag)
          else decide (r.FetchedModified < remoteModified), false,
          { r with Checktime := now }, true⟩

/-- C8: while less than `Peroid` has elapsed since the last recorded check,
both `Check` variants return `(false, nil)`, perform no I/O and leave the
state untouched, whatever the environment would answer; once the period has
elapsed, the local variant reports the file changed exactly when its
modification time is after the recorded fetch-modified time, and the HTTP
variant compares ETags when both are non-empty and Last-Modified
otherwise. -/
theorem resource_check_spec (rl : ResourceLocal) (rh : ResourceHTTP)
    (now : Int) :
    (now - rl.Checktime < rl.Peroid →
      ∀ statResult, rl.Check now statResult = ⟨false, false, rl, false⟩) ∧
    (¬now - rl.Checktime < rl.Peroid → ∀ modTime,
      rl.Check now (some modTime) =
        ⟨decide (rl.FetchedModified < modTime), false,
          { rl with Checktime := now }, true⟩) ∧
    (now - rh.Checktime < rh.Peroid →
      ∀ headResult, rh.Check now headResult = ⟨false, false, rh, false⟩) ∧
    (¬now - rh.Checktime < rh.Peroid → ∀ etag lm,
      rh.Check now (some (etag, some lm)) =
        ⟨if rh.FetchedETag ≠ "" ∧ etag ≠ ""
          then decide (rh.FetchedETag ≠ etag)
          else decide (rh.FetchedModified < lm), false,
          { rh with Checktime := now }, true⟩) := by
  refine ⟨?_, ?_, ?_, ?_⟩
  · intro h statResult
    unfold ResourceLocal.Check
    rw [if_pos (by omega)]
  · intro h modTime
    unfold ResourceLocal.Check
    rw [if_neg (by omega)]
  · intro h headResult
    unfold ResourceHTTP.Check
    rw [if_pos (by omega)]
  · intro h etag lm
    unfold ResourceHTTP.Check
    rw [if_neg (by omega)]

/-- Witness for C8: a local resource checked 20 ns after its last check
with a 50 ns period stays quiet even though the file looks newer; an HTTP
resource past its period with differing non-empty ETags reports a change. -/
theorem resource_check_spec_witness :
    ResourceLocal.Check ⟨"f", 100, 50, 10⟩ 120 (some 999) =
      ⟨false, false, ⟨"f", 100, 50, 10⟩, false⟩ ∧
    ResourceHTTP.Check ⟨"u", 100, 50, "a", 10⟩ 200 (some ("b", some 5)) =
      ⟨true, false, ⟨"u", 200, 50, "a", 10⟩, true⟩ := by
  constructor
  · exact (resource_check_spec ⟨"f", 100, 50, 10⟩ ⟨"u", 100, 50, "a", 10⟩
      120).1 (by norm_num) (some 999)
  · have h := (resource_check_spec ⟨"f", 100, 50, 10⟩ ⟨"u", 100, 50, "a", 10⟩
      200).2.2.2 (by norm_num) "b" 5
    rw [h]
    decide

/-! Alert construction, from `src/realtime/alerts/alertobj.go`,
`src/realtime/alerts/rss.go` and `src/realtime/alerts/const.go`. -/

/-- Go struct `rssItem` (rss.go lines 11-19); the Go field `Type` is named
`ItemType` here (`Type` is reserved in Lean). -/
structure rssItem where
  Title : String
  Link : String
  PubDate : String
  GUID : String
  Description : String
  ItemType : String
deriving DecidableEq, Repr

/-- Go struct `Alert` (alertobj.go lines 19-27). -/
structure Alert where
  ID : String
  Routes : List String
  Effect : String
  Link : String
  Title : String
  Body : String
  HTMLBody : String
deriving DecidableEq, Repr

/-- Model of `regexID.FindStringIndex` (pattern `&p=(\d+)`, const.go line
16) composed with the slice `r.GUID[idMatch[0]+3 : idMatch[1]]` of
alertobj.go line 43: the maximal digit run following the leftmost
occurrence of `"&p="` that is followed by at least one digit; `none` when
the regex does not match. -/
def findPID : List Char → Option (List Char)
  | [] => none
  | c :: cs =>
    if c = '&' ∧ cs.take 2 = ['p', '='] ∧
        (cs.drop 2).takeWhile Char.isDigit ≠ [] then
      some ((cs.drop 2).takeWhile Char.isDigit)
    else findPID cs

/-- Character class `[0-9A-Za-z-]` of `regexRoute` (const.go line 17). -/
def isRouteChar (c : Char) : Bool :=
  c.isDigit || c.isAlpha || c = '-'

/-- Model of `regexRoute.FindAllString(s, -1)`: successive leftmost matches
of `[0-9A-Za-z-]{1,3}`, each greedy (up to three characters), resuming
after each match. -/
def findAllRoutes : List Char → List String
  | [] => []
  | c :: cs =>
    if isRouteChar c then
      String.mk (c :: (cs.takeWhile isRouteChar).take 2) ::
        findAllRoutes (cs.drop ((cs.takeWhile isRouteChar).take 2).length)
    else findAllRoutes cs
termination_by l => l.length
decreasing_by
  · simp only [List.length_drop, List.length_cons]
    omega
  · simp only [List.length_cons]
    omega

/-- Go `strings.Contains(s, ":")` plus `strings.SplitN(s, ":", 2)[1]`
(alertobj.go lines 55-56): everything after the first colon, `none` when
there is no colon. -/
def afterFirstColon : List Char → Option (List Char)
  | [] => none
  | ':' :: cs => some cs
  | _ :: cs => afterFirstColon cs

/-- Go function `alertFromRssItem` (alertobj.go lines 30-73), parameterised
by the `bluemonday` strict sanitizer (an external library, abstracted as an
arbitrary string function). `routeMap` is the static route table
(route-type to route-id bucket); `util.StringSliceHas` on a sorted slice is
modelled as list membership. The error carries the GUID that failed to
match. -/
def alertFromRssItem (sanitize : String → String) (r : rssItem)
    (routeMap : List (String × List String)) : Except String Alert :=
  match findPID r.GUID.data with
  | none => Except.error r.GUID
  | some ds =>
    let idPref := if r.ItemType = "REDUCED_SERVICE" then "A/IMPEDIMENT/"
                  else "A/CHANGE/"
    let routes :=
      match afterFirstColon r.Title.data with
      | none => []
      | some routesString =>
        (findAllRoutes routesString).filter fun route =>
          routeMap.any fun bucket => bucket.2.contains route
    Except.ok
      { ID := idPref ++ String.mk ds
        Routes := routes
        Effect := r.ItemType
        Link := sanitize r.Link
        Title := sanitize r.Description
        Body := ""
        HTMLBody := "" }

/-- If the pattern `&p=` followed by a digit run occurs anywhere in the
input, `findPID` finds a match. -/
theorem findPID_isSome_of_split :
    ∀ (pre ds post : List Char), ds ≠ [] →
      (∀ c ∈ ds, c.isDigit = true) →
      (findPID (pre ++ '&' :: 'p' :: '=' :: (ds ++ post))).isSome = true := by
  intro pre
  induction pre with
  | nil =>
    intro ds post hne hdig
    obtain ⟨c, ds2, rfl⟩ : ∃ c ds2, ds = c :: ds2 := by
      cases ds with
      | nil => exact absurd rfl hne
      | cons c ds2 => exact ⟨c, ds2, rfl⟩
    have hc : c.isDigit = true := hdig c (List.mem_cons_self _ _)
    rw [List.nil_append, findPID, if_pos ?_]
    · rfl
    · refine ⟨rfl, by simp, ?_⟩
      simp [List.takeWhile, hc]
  | cons a pre2 ih =>
    intro ds post hne hdig
    rw [List.cons_append, findPID]
    split
    · rfl
    · exact ih ds post hne hdig

/-- A successful `findPID` exhibits the pattern in the input: the match is
a non-empty digit run preceded by `&p=`. -/
theorem findPID_some_split (l ds : List Char) (h : findPID l = some ds) :
    ∃ pre post, l = pre ++ '&' :: 'p' :: '=' :: (ds ++ post) ∧
      ds ≠ [] ∧ ∀ c ∈ ds, c.isDigit = true := by
  induction l with
  | nil => cases h
  | cons c cs ih =>
    rw [findPID] at h
    by_cases hcond : c = '&' ∧ cs.take 2 = ['p', '='] ∧
        (cs.drop 2).takeWhile Char.isDigit ≠ []
    · rw [if_pos hcond] at h
      obtain ⟨hc, htake, hdw⟩ := hcond
      cases h
      refine ⟨[], (cs.drop 2).dropWhile Char.isDigit, ?_, hdw, ?_⟩
      · subst hc
        simp only [List.nil_append, List.cons.injEq, true_and]
        conv_lhs => rw [← List.take_append_drop 2 cs]
        rw [htake, List.takeWhile_append_dropWhile]
        rfl
      · intro x hx
        exact List.mem_takeWhile_imp hx
    · rw [if_neg hcond] at h
      obtain ⟨pre, post, hsplit, hne2, hdig⟩ := ih h
      exact ⟨c :: pre, post, by rw [hsplit, List.cons_append], hne2, hdig⟩

/-- `findPID` fails exactly when no substring matches `&p=<digits>`. -/
theorem findPID_none_iff (l : List Char) :
    findPID l = none ↔
      ¬∃ pre ds post, l = pre ++ '&' :: 'p' :: '=' :: (ds ++ post) ∧
        ds ≠ [] ∧ ∀ c ∈ ds, c.isDigit = true := by
  constructor
  · rintro hnone ⟨pre, ds, post, rfl, hne, hdig⟩
    have hsome := findPID_isSome_of_split pre ds post hne hdig
    rw [hnone] at hsome
    cases hsome
  · intro hno
    cases hf : findPID l with
    | none => rfl
    | some ds =>
      obtain ⟨pre, post, hsplit, hne, hdig⟩ := findPID_some_split l ds hf
      exact absurd ⟨pre, ds, post, hsplit, hne, hdig⟩ hno

/-- C7: `alertFromRssItem` errors exactly when the GUID contains no
substring matching `&p=<digits>`; on success the alert's ID is
`A/IMPEDIMENT/` followed by the captured digits for `REDUCED_SERVICE`
items, and `A/CHANGE/` followed by the captured digits otherwise. Proved
for every sanitizer function and route table. -/
theorem alertFromRssItem_spec (sanitize : String → String) (r : rssItem)
    (routeMap : List (String × List String)) :
    ((∃ e, alertFromRssItem sanitize r routeMap = Except.error e) ↔
      ¬∃ pre ds post,
        r.GUID.data = pre ++ '&' :: 'p' :: '=' :: (ds ++ post) ∧
        ds ≠ [] ∧ ∀ c ∈ ds, c.isDigit = true) ∧
    (∀ a, alertFromRssItem sanitize r routeMap = Except.ok a →
      ∃ ds, findPID r.GUID.data = some ds ∧ ds ≠ [] ∧
        (∀ c ∈ ds, c.isDigit = true) ∧
        a.ID = (if r.ItemType = "REDUCED_SERVICE" then "A/IMPEDIMENT/"
                else "A/CHANGE/") ++ String.mk ds) := by
  cases hf : findPID r.GUID.data with
  | none =>
    constructor
    · rw [← findPID_none_iff]
      exact iff_of_true ⟨r.GUID, by simp [alertFromRssItem, hf]⟩ hf
    · intro a ha
      rw [alertFromRssItem, hf] at ha
      cases ha
  | some ds =>
    obtain ⟨pre, post, hsplit, hne, hdig⟩ := findPID_some_split _ ds hf
    constructor
    · refine iff_of_false ?_ ?_
      · rintro ⟨e, he⟩
        rw [alertFromRssItem, hf] at he
        cases he
      · intro hno
        exact hno ⟨pre, ds, post, hsplit, hne, hdig⟩
    · intro a ha
      rw [alertFromRssItem, hf] at ha
      cases ha
      exact ⟨ds, rfl, hne, hdig, rfl⟩

/-- C7 witness item (spec scenario S1): an impediment item whose GUID
carries `&p=123`. -/
def c7item : rssItem :=
  { Title := "Zmiany"
    Link := "https://www.wtp.waw.pl/x"
    PubDate := ""
    GUID := "https://www.wtp.waw.pl/?x=1&p=123"
    Description := "desc"
    ItemType := "REDUCED_SERVICE" }

/-- Witness for C7: the item with GUID `...&p=123` produces the alert id
`A/IMPEDIMENT/123`. -/
theorem alertFromRssItem_spec_witness :
    ∃ ds, findPID c7item.GUID.data = some ds ∧ ds ≠ [] ∧
      (∀ c ∈ ds, c.isDigit = true) ∧
      "A/IMPEDIMENT/123" =
        (if c7item.ItemType = "REDUCED_SERVICE" then "A/IMPEDIMENT/"
         else "A/CHANGE/") ++ String.mk ds := by
  have h := (alertFromRssItem_spec (fun s => s) c7item []).2
  obtain ⟨ds, hds, hne, hdig, hid⟩ := h
    { ID := "A/IMPEDIMENT/123"
      Routes := []
      Effect := "REDUCED_SERVICE"
      Link := "https://www.wtp.waw.pl/x"
      Title := "desc"
      Body := ""
      HTMLBody := "" } (by decide)
  exact ⟨ds, hds, hne, hdig, hid⟩

end WarsawGTFS
